import Mathlib

/-!
Shallow embedding of the binned waveform renderer
(src/binned.rs, `BinnedWaveformRenderer`).

Modelling conventions:
* Rust `usize` is modelled by `Nat`.  The source never relies on wrap-around
  except where noted in a comment next to the definition.
* Rust `f64` is modelled by `ℚ` (exact rational arithmetic).  The source's
  floating computations here are divisions, floors and ceilings of values
  derived from machine integers; the rational model is the exact-real reading
  of those operations.  The one place where IEEE special values matter
  (division by a zero pixel column index producing `+inf`) is modelled
  explicitly, see `stepChoice`.
* A Rust `Result<_, Box<dyn Error>>` is modelled by `Option` / an explicit
  error type; a `panic!`/`unreachable!` is modelled by a dedicated
  `RenderError.panic` value.
* The sample type `T : Sample` is a type `α` with a linear order, a zero,
  and a conversion `toAmp : α → ℚ` (the source's `Into<f64>`), passed
  explicitly.
-/

namespace WaveformRs

/-- `Color` (crate type `misc::Color`): Scalar / Vector3 / Vector4 pixel
colors, one byte per channel. -/
inductive Color : Type where
  | scalar (a : ℕ)
  | vector3 (r g b : ℕ)
  | vector4 (r g b a : ℕ)
  deriving DecidableEq

/-- Bytes per pixel of a color format: the allocation / bounds-check factor
used in `render_vec` and `render_write` (1, 3 or 4). -/
def Color.bytesPerPixel : Color → ℕ
  | .scalar _ => 1
  | .vector3 _ _ _ => 3
  | .vector4 _ _ _ _ => 4

/-- The byte sequence a color writes for one pixel: `[a]`, `[r,g,b]` or
`[r,g,b,a]`, exactly the arrays `bg_colors`/`fg_colors` built in
`render_write`. -/
def Color.bytes : Color → List ℕ
  | .scalar a => [a]
  | .vector3 r g b => [r, g, b]
  | .vector4 r g b a => [r, g, b, a]

/-- The `match (background, foreground)` dispatch of `render_write`:
for two colors of the same variant, the pair of byte arrays; for mismatched
variants `none` (the source hits `unreachable!`, i.e. panics). -/
def colorBytesPair : Color → Color → Option (List ℕ × List ℕ)
  | .scalar ba, .scalar fa => some ([ba], [fa])
  | .vector3 br bg bb, .vector3 fr fg fb => some ([br, bg, bb], [fr, fg, fb])
  | .vector4 br bg bb ba, .vector4 fr fg fb fa =>
      some ([br, bg, bb, ba], [fr, fg, fb, fa])
  | _, _ => none

/-- `WaveformConfig` (crate type `misc::WaveformConfig`): amplitude range and
the two colors.  Validation (amp_min < amp_max, matching color variants) is
the external constructor's job and is not re-checked by the renderer. -/
structure WaveformConfig : Type where
  amp_min : ℚ
  amp_max : ℚ
  background : Color
  foreground : Color
  deriving DecidableEq

/-- `TimeRange` (crate type `misc::TimeRange`). -/
inductive TimeRange : Type where
  | seconds (b e : ℚ)
  | samples (b e : ℕ)

/-- `MinMaxPair` (crate type `misc::MinMaxPair`). -/
structure MinMaxPair (α : Type) : Type where
  min : α
  max : α
  deriving DecidableEq

/-- `SampleSequence` (crate type `misc::SampleSequence`): sample data plus a
sample rate. -/
structure SampleSequence (α : Type) : Type where
  data : List α
  sample_rate : ℚ

/-- `BinnedWaveformRenderer` (src/binned.rs lines 17-22). -/
structure BinnedWaveformRenderer (α : Type) : Type where
  config : WaveformConfig
  sample_rate : ℚ
  bin_size : ℕ
  minmax : List (MinMaxPair α)
  deriving DecidableEq

/-- The single error kind of the crate, `InvalidSizeError { var_name }`,
plus an explicit marker for the `unreachable!` panic on mismatched color
variants (a panic is not a returned error in the source; it is kept separate
here so statements can distinguish the two). -/
inductive RenderError : Type where
  | invalidSize (var_name : String)
  | panic
  deriving DecidableEq

/-- The bin count `(nb_samples as f64 / bin_size as f64).ceil() as usize`
(src/binned.rs line 46).  For `bin_size ≥ 1` (and operands below `2^53`,
where `f64` represents them exactly) this is the exact ceiling
`(n + b - 1) / b`.  For `bin_size = 0` the source computes `n / 0.0`:
`+inf` for `n > 0`, whose saturating `as usize` cast is `2^64 - 1`, and
`NaN` for `n = 0`, whose cast is `0`. -/
def nbBins (nb_samples bin_size : ℕ) : ℕ :=
  if bin_size = 0 then (if nb_samples = 0 then 0 else 2 ^ 64 - 1)
  else (nb_samples + bin_size - 1) / bin_size

/-- One step of the min/max accumulation inside a bin
(src/binned.rs lines 57-62): `if s > max { max = s } else if s < min
{ min = s }`. -/
def binFold {α : Type} [LinearOrder α] (acc : MinMaxPair α) (s : α) :
    MinMaxPair α :=
  if acc.max < s then ⟨acc.min, s⟩
  else if s < acc.min then ⟨s, acc.max⟩
  else acc

/-- Bin number `x` of the construction loop (src/binned.rs lines 48-66):
min and max start from `data[x * bin_size]` and fold over the further
samples `data[x * bin_size + i]` for `i in 1..bin_size`, stopping at the end
of the data.  The `[]` case is unreachable in the source (it indexes
`data[x * bin_size]` unconditionally; for every bin the loop creates the
index is in range). -/
def mkBin {α : Type} [LinearOrder α] [Zero α] (data : List α)
    (bin_size x : ℕ) : MinMaxPair α :=
  match data.drop (x * bin_size) with
  | [] => ⟨0, 0⟩
  | s :: rest => (rest.take (bin_size - 1)).foldl binFold ⟨s, s⟩

/-- `BinnedWaveformRenderer::new` (src/binned.rs lines 36-74): rejects
`bin_size > nb_samples` with an `InvalidSizeError` (modelled as `none`),
otherwise builds the `nbBins` min/max pairs and the renderer. -/
def new {α : Type} [LinearOrder α] [Zero α] (samples : SampleSequence α)
    (bin_size : ℕ) (config : WaveformConfig) :
    Option (BinnedWaveformRenderer α) :=
  if bin_size > samples.data.length then none
  else some
    { config := config
      sample_rate := samples.sample_rate
      bin_size := bin_size
      minmax :=
        (List.range (nbBins samples.data.length bin_size)).map
          (mkBin samples.data bin_size) }

/-- Resolution of a `TimeRange` to an absolute sample interval
(src/binned.rs lines 157-163).  The `(b * sample_rate) as usize` cast of the
source truncates toward zero and saturates at `0` for negative values, which
is `Int.toNat ∘ Rat.floor` for nonnegative values and `0` below. -/
def resolveRange (range : TimeRange) (sample_rate : ℚ) : ℕ × ℕ :=
  match range with
  | .seconds b e => ((⌊b * sample_rate⌋).toNat, (⌊e * sample_rate⌋).toNat)
  | .samples b e => (b, e)

/-- The per-column step choice of `render_write`
(src/binned.rs lines 173-177): take the ceil step exactly when
`((bins consumed so far) + 1) / x < bins_per_pixel`.  At `x = 0` the
source's `f64` division yields `+inf` and the comparison is false, hence
the explicit `x ≠ 0` conjunct. -/
def stepChoice (binsPerPixel : ℚ) (consumed x : ℕ) : ℕ :=
  if x ≠ 0 ∧ ((consumed : ℚ) + 1) / (x : ℚ) < binsPerPixel then
    Nat.ceil binsPerPixel
  else Nat.floor binsPerPixel

/-- The running total of bins consumed by the step rule `stepChoice` after
each pixel column, starting from zero consumed before column 0
(src/binned.rs lines 170-177 and 199, `start_bin_idx - offset_bin_idx`,
in the regime where the end-of-data clamp of line 186 never binds). -/
def consumedBins (binsPerPixel : ℚ) : ℕ → ℕ
  | 0 => 0
  | x + 1 =>
      consumedBins binsPerPixel x +
        stepChoice binsPerPixel (consumedBins binsPerPixel x) x

/-- One step of the bin reduction inside a pixel column
(src/binned.rs lines 191-198): `if b.min < min { min = b.min }` and
`if b.max > max { max = b.max }`. -/
def pairFold {α : Type} [LinearOrder α] (acc b : MinMaxPair α) :
    MinMaxPair α :=
  ⟨if b.min < acc.min then b.min else acc.min,
   if acc.max < b.max then b.max else acc.max⟩

/-- The bin reduction of one pixel column (src/binned.rs lines 179-203):
if `start < len - 1`, reduce bins `[start, min (start + inc) len)` starting
from `bins[start]` and advance to the clamped range end; otherwise (the
starting index reaches the final bin) yield the sample type's zero for both
min and max and do not advance.  (For `len = 0` the source's `len - 1`
underflows; that state is unreachable from a successful construction, which
always produces at least one bin.) -/
def consumeBins {α : Type} [LinearOrder α] [Zero α]
    (bins : List (MinMaxPair α)) (start inc : ℕ) : MinMaxPair α × ℕ :=
  if start < bins.length - 1 then
    let d := (bins.drop start).headD ⟨0, 0⟩
    let range_end :=
      if start + inc ≤ bins.length then start + inc else bins.length
    (((bins.drop start).take (range_end - start)).foldl pairFold d, range_end)
  else (⟨0, 0⟩, start)

/-- Amplitude-to-row translation (src/binned.rs lines 205-221):
`h - clamp(⌊(v - amp_min) * scale⌋, 0, h)`.  The source's intermediate
`as i32` casts saturate only beyond `2^31`, far outside any realizable
pixel height; they are modelled as exact. -/
def translate (h : ℕ) (ampMin scale v : ℚ) : ℕ :=
  h - (max 0 (min (h : ℤ) ⌊(v - ampMin) * scale⌋)).toNat

/-- Modelled from the spec: the byte address of channel `c` of pixel
`(px, py)` in a row-major buffer of pixel width `fullw` at `bpp` bytes per
pixel.  The source computes this through the `pixel!` macro
(src/macros, not present under src/); spec §6: the buffer layout is
"Scalar/Vector3/Vector4, row-major, top-to-bottom". -/
def pxIdx (fullw bpp px py c : ℕ) : ℕ :=
  (py * fullw + px) * bpp + c

/-- The byte writes of one pixel: channel `c` of the pixel gets byte `c` of
the color's byte array (spec §4.2 item 6: "Scalar writes one byte per
pixel; Vector3 writes three contiguous bytes in (r,g,b) order; Vector4
writes four contiguous bytes in (r,g,b,a) order"). -/
def rowWrites (fullw bpp px py : ℕ) (bytes : List ℕ) : List (ℕ × ℕ) :=
  (List.range bytes.length).map fun c => (pxIdx fullw bpp px py c, bytes.getD c 0)

/-- Modelled from the spec: the writes of one vertical segment
`y ∈ [y0, y1)` of a pixel column, painted with `bytes`.  The source
iterates these rows through the `flipping_three_segment_for!` macro
(src/macros, not present under src/); spec §4.2 item 5 gives the three
row ranges. -/
def segWrites (fullw bpp px offy y0 y1 : ℕ) (bytes : List ℕ) :
    List (ℕ × ℕ) :=
  (List.range' y0 (y1 - y0)).flatMap fun y =>
    rowWrites fullw bpp px (offy + y) bytes

/-- The writes of one pixel column (spec §4.2 item 5): rows `[0, max_row)`
background, `[max_row, min_row)` foreground, `[min_row, h)` background. -/
def columnWrites (fullw bpp px offy maxT minT h : ℕ) (bg fg : List ℕ) :
    List (ℕ × ℕ) :=
  segWrites fullw bpp px offy 0 maxT bg ++
    segWrites fullw bpp px offy maxT minT fg ++
    segWrites fullw bpp px offy minT h bg

/-- The loop-invariant data of `render_write`'s per-column loop
(src/binned.rs lines 157-230): the bin sequence, the conversion to
amplitude, `bins_per_pixel`, `offset_bin_idx`, the amplitude scale data,
the destination offsets and shape data, and the two color byte arrays. -/
structure RenderCtx (α : Type) : Type where
  bins : List (MinMaxPair α)
  toAmp : α → ℚ
  binsPerPixel : ℚ
  offsetBin : ℕ
  ampMin : ℚ
  scale : ℚ
  offx : ℕ
  offy : ℕ
  h : ℕ
  fullw : ℕ
  bpp : ℕ
  bg : List ℕ
  fg : List ℕ

/-- One pixel column of `render_write`'s loop (src/binned.rs lines
172-351): choose the step, reduce the consumed bins to a (min, max) pair,
translate the two amplitudes to rows, and emit the three segments of byte
writes; returns the advanced bin index and the writes. -/
def column {α : Type} [LinearOrder α] [Zero α] (C : RenderCtx α)
    (start x : ℕ) : ℕ × List (ℕ × ℕ) :=
  let inc := stepChoice C.binsPerPixel (start - C.offsetBin) x
  let res := consumeBins C.bins start inc
  let minT := translate C.h C.ampMin C.scale (C.toAmp res.1.min)
  let maxT := translate C.h C.ampMin C.scale (C.toAmp res.1.max)
  (res.2, columnWrites C.fullw C.bpp (C.offx + x) C.offy maxT minT C.h C.bg C.fg)

/-- The whole per-column loop `for x in 0..w` (src/binned.rs line 172),
threading the running bin index and concatenating the byte writes in
column order. -/
def renderCols {α : Type} [LinearOrder α] [Zero α] (C : RenderCtx α)
    (start : ℕ) : List ℕ → List (ℕ × ℕ)
  | [] => []
  | x :: xs => (column C start x).2 ++ renderCols C (column C start x).1 xs

/-- All byte writes a call to `render_write` performs (after its size
checks), as a list of (byte index, byte value) pairs in write order;
`[]` when the color variants mismatch (the source panics there before
writing anything). -/
def renderWritesFor {α : Type} [LinearOrder α] [Zero α]
    (r : BinnedWaveformRenderer α) (toAmp : α → ℚ) (range : TimeRange)
    (offx offy w h fullw : ℕ) : List (ℕ × ℕ) :=
  match colorBytesPair r.config.background r.config.foreground with
  | none => []
  | some p =>
      let be := resolveRange range r.sample_rate
      let nb_samples := be.2 - be.1
      let samples_per_pixel : ℚ := (nb_samples : ℚ) / (w : ℚ)
      let binsPerPixel : ℚ := samples_per_pixel / (r.bin_size : ℚ)
      let offsetBin := be.1 / r.bin_size
      let scale : ℚ := 1 / (r.config.amp_max - r.config.amp_min) * (h : ℚ)
      renderCols
        { bins := r.minmax
          toAmp := toAmp
          binsPerPixel := binsPerPixel
          offsetBin := offsetBin
          ampMin := r.config.amp_min
          scale := scale
          offx := offx
          offy := offy
          h := h
          fullw := fullw
          bpp := r.config.background.bytesPerPixel
          bg := p.1
          fg := p.2 }
        offsetBin (List.range w)

/-- Application of a list of byte writes to a buffer, in order; an index
past the end leaves the buffer unchanged (in the source such a write is an
out-of-bounds slice index, i.e. a panic — see the theorems on claim C2). -/
def applyWrites (img : List ℕ) (ws : List (ℕ × ℕ)) : List ℕ :=
  ws.foldl (fun b iv => b.set iv.1 iv.2) img

/-- `BinnedWaveformRenderer::render_write` (src/binned.rs lines 125-354):
the three size checks in source order, the color-variant dispatch
(`unreachable!` on mismatch, modelled as `RenderError.panic`), then the
per-column writes.  Returns the error (if any) together with the resulting
buffer contents. -/
def render_write {α : Type} [LinearOrder α] [Zero α]
    (r : BinnedWaveformRenderer α) (toAmp : α → ℚ) (range : TimeRange)
    (offsets shape : ℕ × ℕ) (img : List ℕ) (full_shape : ℕ × ℕ) :
    Option RenderError × List ℕ :=
  if shape.1 = 0 ∨ shape.2 = 0 then
    (some (RenderError.invalidSize "shape"), img)
  else if full_shape.1 < shape.1 ∨ full_shape.2 < shape.2 then
    (some (RenderError.invalidSize "shape and/or full_shape"), img)
  else if (offsets.1 + shape.1) * (offsets.2 + shape.2) *
      r.config.background.bytesPerPixel > img.length then
    (some (RenderError.invalidSize "offsets and/or shape"), img)
  else if colorBytesPair r.config.background r.config.foreground = none then
    (some RenderError.panic, img)
  else
    (none,
      applyWrites img
        (renderWritesFor r toAmp range offsets.1 offsets.2 shape.1 shape.2
          full_shape.1))

/-- `BinnedWaveformRenderer::render_vec` (src/binned.rs lines 85-101):
`none` for a zero dimension, otherwise a zero-initialized buffer of
`w * h * bytesPerPixel` bytes written through `render_write` with zero
offsets and `full_shape = shape`.  (The source `unwrap`s the inner result;
on the arguments `render_vec` passes, the size checks always succeed.) -/
def render_vec {α : Type} [LinearOrder α] [Zero α]
    (r : BinnedWaveformRenderer α) (toAmp : α → ℚ) (range : TimeRange)
    (shape : ℕ × ℕ) : Option (List ℕ) :=
  if shape.1 = 0 ∨ shape.2 = 0 then none
  else
    let img :=
      List.replicate (shape.1 * shape.2 * r.config.background.bytesPerPixel) 0
    some (render_write r toAmp range (0, 0) shape img shape).2

/-- A minimal externally-validated scalar-color config, used by the
concrete witnesses below. -/
def testConfig : WaveformConfig :=
  { amp_min := -1, amp_max := 1
    background := Color.scalar 7, foreground := Color.scalar 9 }

/-- A one-bin renderer over the single zero sample, `bin_size = 1`
(what `new ⟨[0], 1⟩ 1 testConfig` constructs). -/
def testRenderer1 : BinnedWaveformRenderer ℤ :=
  { config := testConfig, sample_rate := 1, bin_size := 1
    minmax := [⟨0, 0⟩] }

/-- A two-bin renderer over two zero samples, `bin_size = 1`
(what `new ⟨[0, 0], 1⟩ 1 testConfig` constructs). -/
def testRenderer2 : BinnedWaveformRenderer ℤ :=
  { config := testConfig, sample_rate := 1, bin_size := 1
    minmax := [⟨0, 0⟩, ⟨0, 0⟩] }

/-! ## Theorems -/

theorem testRenderer1_eq_new :
    new (⟨[0], 1⟩ : SampleSequence ℤ) 1 testConfig = some testRenderer1 := by
  decide

theorem testRenderer2_eq_new :
    new (⟨[0, 0], 1⟩ : SampleSequence ℤ) 1 testConfig = some testRenderer2 := by
  decide

/-- C8: construction fails with an `InvalidSizeError` exactly when
`bin_size` exceeds the sample count, and does not return this error
otherwise (src/binned.rs lines 40-44). -/
theorem new_invalid_size_iff {α : Type} [LinearOrder α] [Zero α]
    (samples : SampleSequence α) (bin_size : ℕ) (config : WaveformConfig) :
    new samples bin_size config = none ↔ samples.data.length < bin_size := by
  unfold new
  split_ifs with h
  · exact iff_of_true rfl h
  · simp [h]

/-- C10: construction never validates the documented lower bound
`1 ≤ bin_size`: for every non-empty sample sequence, `new samples 0 config`
is not rejected with an `InvalidSizeError` — the only size check
(src/binned.rs line 40) is `bin_size > sample count`. -/
theorem new_bin_size_zero_not_rejected {α : Type} [LinearOrder α] [Zero α]
    (samples : SampleSequence α) (config : WaveformConfig)
    (_hne : samples.data ≠ []) : (new samples 0 config).isSome := by
  unfold new
  rw [if_neg (by simp)]
  rfl

/-- Witness for C10 at a concrete non-empty sample sequence. -/
theorem new_bin_size_zero_not_rejected_witness :
    (new (⟨[5], 1⟩ : SampleSequence ℤ) 0 testConfig).isSome :=
  new_bin_size_zero_not_rejected _ _ (by simp)

/-- C7: `render_write` is all-or-nothing — on every input on which it
returns an error, it returns before performing any write, so the buffer is
byte-for-byte unchanged (src/binned.rs lines 125-155: all three size checks
return before the pixel loop). -/
theorem render_write_error_leaves_buffer {α : Type} [LinearOrder α] [Zero α]
    (r : BinnedWaveformRenderer α) (toAmp : α → ℚ) (range : TimeRange)
    (offsets shape : ℕ × ℕ) (img : List ℕ) (full_shape : ℕ × ℕ)
    (e : RenderError)
    (herr : (render_write r toAmp range offsets shape img full_shape).1 =
      some e) :
    (render_write r toAmp range offsets shape img full_shape).2 = img := by
  unfold render_write at herr ⊢
  split_ifs at herr ⊢ <;> simp_all

/-- Witness for C7 at a concrete rejected call (zero-width shape). -/
theorem render_write_error_leaves_buffer_witness :
    (render_write testRenderer1 (fun _ => 0) (TimeRange.samples 0 1)
      (0, 0) (0, 1) [5] (1, 1)).2 = [5] :=
  render_write_error_leaves_buffer _ _ _ _ _ _ _
    (RenderError.invalidSize "shape") (by decide)

theorem binFold_eq {α : Type} [LinearOrder α] (acc : MinMaxPair α)
    (h : acc.min ≤ acc.max) (s : α) :
    binFold acc s = ⟨min acc.min s, max acc.max s⟩ := by
  unfold binFold
  split_ifs with h1 h2
  · simp [min_eq_left (le_trans h (le_of_lt h1)), max_eq_right (le_of_lt h1)]
  · simp [min_eq_right (le_of_lt h2), max_eq_left (le_trans (le_of_lt h2) h)]
  · simp [min_eq_left (not_lt.mp h2), max_eq_left (not_lt.mp h1)]

theorem foldl_binFold_eq {α : Type} [LinearOrder α] (l : List α) :
    ∀ a : MinMaxPair α, a.min ≤ a.max →
      l.foldl binFold a = ⟨l.foldl min a.min, l.foldl max a.max⟩ := by
  induction l with
  | nil => intro a _; rfl
  | cons x xs ih =>
    intro a h
    rw [List.foldl_cons, List.foldl_cons, List.foldl_cons, binFold_eq a h x]
    exact ih _ (le_trans (le_trans (min_le_left _ _) h) (le_max_left _ _))

theorem foldl_min_le_init {α : Type} [LinearOrder α] :
    ∀ (l : List α) (a : α), l.foldl min a ≤ a
  | [], a => le_refl a
  | x :: xs, a => le_trans (foldl_min_le_init xs (min a x)) (min_le_left a x)

theorem foldl_min_le_mem {α : Type} [LinearOrder α] :
    ∀ (l : List α) (a s : α), s ∈ l → l.foldl min a ≤ s
  | [], _, _, hs => absurd hs (List.not_mem_nil _)
  | x :: xs, a, s, hs => by
      rw [List.foldl_cons]
      rcases List.mem_cons.mp hs with rfl | h
      · exact le_trans (foldl_min_le_init xs _) (min_le_right a s)
      · exact foldl_min_le_mem xs (min a x) s h

theorem foldl_min_mem {α : Type} [LinearOrder α] :
    ∀ (l : List α) (a : α), l.foldl min a = a ∨ l.foldl min a ∈ l
  | [], _ => Or.inl rfl
  | x :: xs, a => by
      rw [List.foldl_cons]
      rcases foldl_min_mem xs (min a x) with h | h
      · rw [h]
        rcases min_choice a x with h' | h'
        · exact Or.inl h'
        · exact Or.inr (by rw [h']; exact List.mem_cons_self x xs)
      · exact Or.inr (List.mem_cons_of_mem x h)

theorem foldl_max_init_le {α : Type} [LinearOrder α] :
    ∀ (l : List α) (a : α), a ≤ l.foldl max a
  | [], a => le_refl a
  | x :: xs, a => le_trans (le_max_left a x) (foldl_max_init_le xs (max a x))

theorem foldl_max_mem_le {α : Type} [LinearOrder α] :
    ∀ (l : List α) (a s : α), s ∈ l → s ≤ l.foldl max a
  | [], _, _, hs => absurd hs (List.not_mem_nil _)
  | x :: xs, a, s, hs => by
      rw [List.foldl_cons]
      rcases List.mem_cons.mp hs with rfl | h
      · exact le_trans (le_max_right a s) (foldl_max_init_le xs _)
      · exact foldl_max_mem_le xs (max a x) s h

theorem foldl_max_mem {α : Type} [LinearOrder α] :
    ∀ (l : List α) (a : α), l.foldl max a = a ∨ l.foldl max a ∈ l
  | [], _ => Or.inl rfl
  | x :: xs, a => by
      rw [List.foldl_cons]
      rcases foldl_max_mem xs (max a x) with h | h
      · rw [h]
        rcases max_choice a x with h' | h'
        · exact Or.inl h'
        · exact Or.inr (by rw [h']; exact List.mem_cons_self x xs)
      · exact Or.inr (List.mem_cons_of_mem x h)

/-- C1: for every sample sequence of length `N` and `1 ≤ bin_size ≤ N`,
construction succeeds with exactly `⌈N / bin_size⌉` bins; bin `i` covers
samples `[i * bin_size, min ((i+1) * bin_size) N)` (the `take`/`drop`
window below), its min and max are attained by samples of that window, and
they bound every sample of the window (src/binned.rs lines 36-74). -/
theorem new_bins_correct {α : Type} [LinearOrder α] [Zero α]
    (samples : SampleSequence α) (B : ℕ) (config : WaveformConfig)
    (hB : 1 ≤ B) (hBN : B ≤ samples.data.length) :
    ∃ r : BinnedWaveformRenderer α, new samples B config = some r ∧
      r.minmax.length = (samples.data.length + B - 1) / B ∧
      ∀ i (hi : i < r.minmax.length),
        ((r.minmax.get ⟨i, hi⟩).min ∈ (samples.data.drop (i * B)).take B) ∧
        ((r.minmax.get ⟨i, hi⟩).max ∈ (samples.data.drop (i * B)).take B) ∧
        ∀ a ∈ (samples.data.drop (i * B)).take B,
          (r.minmax.get ⟨i, hi⟩).min ≤ a ∧ a ≤ (r.minmax.get ⟨i, hi⟩).max := by
  have hB0 : 0 < B := hB
  refine ⟨⟨config, samples.sample_rate, B,
      (List.range (nbBins samples.data.length B)).map
        (mkBin samples.data B)⟩, ?_, ?_, ?_⟩
  · unfold new
    rw [if_neg (not_lt.mpr hBN)]
  · simp only [List.length_map, List.length_range, nbBins,
      if_neg (by omega : ¬ B = 0)]
  · intro i hi
    have hlen : i < nbBins samples.data.length B := by
      simpa [List.length_map, List.length_range] using hi
    have hiB : i * B < samples.data.length := by
      have h1 : (i + 1) * B ≤ samples.data.length + B - 1 := by
        rw [nbBins, if_neg (by omega : ¬ B = 0)] at hlen
        exact (Nat.le_div_iff_mul_le hB0).mp hlen
      rw [add_mul, one_mul] at h1
      omega
    have hdrop : samples.data.drop (i * B) ≠ [] := by
      intro hcontra
      have := List.length_drop (i * B) samples.data
      rw [hcontra] at this
      simp at this
      omega
    obtain ⟨s, rest, hd⟩ := List.exists_cons_of_ne_nil hdrop
    have hget : (List.map (mkBin samples.data B)
        (List.range (nbBins samples.data.length B))).get
          ⟨i, by simpa [List.length_map, List.length_range] using hi⟩ =
        mkBin samples.data B i := by
      simp [List.get_eq_getElem, List.getElem_map, List.getElem_range]
    obtain ⟨B', rfl⟩ : ∃ B', B = B' + 1 := ⟨B - 1, by omega⟩
    have hcov : (samples.data.drop (i * (B' + 1))).take (B' + 1) =
        s :: rest.take B' := by
      rw [hd, List.take_succ_cons]
    have hbin : mkBin samples.data (B' + 1) i =
        ⟨(rest.take B').foldl min s, (rest.take B').foldl max s⟩ := by
      unfold mkBin
      rw [hd]
      simp only [Nat.add_sub_cancel]
      exact foldl_binFold_eq _ ⟨s, s⟩ (le_refl s)
    rw [hget, hbin, hcov]
    refine ⟨?_, ?_, ?_⟩
    · rcases foldl_min_mem (rest.take B') s with h | h
      · rw [h]; exact List.mem_cons_self _ _
      · exact List.mem_cons_of_mem _ h
    · rcases foldl_max_mem (rest.take B') s with h | h
      · rw [h]; exact List.mem_cons_self _ _
      · exact List.mem_cons_of_mem _ h
    · intro a ha
      rcases List.mem_cons.mp ha with rfl | h
      · exact ⟨foldl_min_le_init _ _, foldl_max_init_le _ _⟩
      · exact ⟨foldl_min_le_mem _ _ _ h, foldl_max_mem_le _ _ _ h⟩

/-- Witness for C1 at samples `[3, 1, 2]` with `bin_size = 2`. -/
theorem new_bins_correct_witness :
    ∃ r : BinnedWaveformRenderer ℤ,
      new (⟨[3, 1, 2], 1⟩ : SampleSequence ℤ) 2 testConfig = some r ∧
      r.minmax.length = (([3, 1, 2] : List ℤ).length + 2 - 1) / 2 ∧
      ∀ i (hi : i < r.minmax.length),
        ((r.minmax.get ⟨i, hi⟩).min ∈
          (([3, 1, 2] : List ℤ).drop (i * 2)).take 2) ∧
        ((r.minmax.get ⟨i, hi⟩).max ∈
          (([3, 1, 2] : List ℤ).drop (i * 2)).take 2) ∧
        ∀ a ∈ (([3, 1, 2] : List ℤ).drop (i * 2)).take 2,
          (r.minmax.get ⟨i, hi⟩).min ≤ a ∧ a ≤ (r.minmax.get ⟨i, hi⟩).max :=
  new_bins_correct ⟨[3, 1, 2], 1⟩ 2 testConfig (by decide) (by decide)

theorem floor_nineteen_tenths : Nat.floor (19/10 : ℚ) = 1 := by
  rw [Nat.floor_eq_iff (by norm_num)]
  norm_num

theorem ceil_nineteen_tenths : Nat.ceil (19/10 : ℚ) = 2 := by
  rw [Nat.ceil_eq_iff (by norm_num)]
  norm_num

theorem consumed_nineteen_tenths_one : consumedBins (19/10 : ℚ) 1 = 1 := by
  simp [consumedBins, stepChoice, floor_nineteen_tenths]

theorem consumed_nineteen_tenths_two : consumedBins (19/10 : ℚ) 2 = 2 := by
  rw [show (2:ℕ) = 1 + 1 from rfl, consumedBins, consumed_nineteen_tenths_one,
    stepChoice]
  rw [if_neg (by norm_num)]
  rw [floor_nineteen_tenths]

/-- C5 counterexample: with `bins_per_pixel = 19/10` (realized e.g. by
`nb_samples = 19`, `w = 10`, `bin_size = 1`), after 2 of the 10 columns the
code's step rule has consumed 2 bins while the ideal is `2 * 19/10 = 19/5`,
a drift of `9/5 ≥ 1` — refuting the claimed "less than one bin" drift
bound. -/
theorem step_drift_claim_false :
    ¬ (∀ x, x ≤ 10 →
        |((consumedBins (19/10 : ℚ) x : ℕ) : ℚ) - (x : ℚ) * (19/10 : ℚ)| < 1) := by
  intro hcl
  have h := hcl 2 (by norm_num)
  rw [consumed_nineteen_tenths_two] at h
  rcases abs_lt.mp h with ⟨h1, h2⟩
  push_cast at h1
  norm_num at h1

/-- C5 (amended): the per-column step is chosen between `⌊bins_per_pixel⌋`
and `⌈bins_per_pixel⌉` by `stepChoice` — the ceil step exactly when
`(consumed + 1) / x < bins_per_pixel` (src/binned.rs lines 173-177) — and
under this rule the consumed total after any prefix of columns never
exceeds the ideal `x * bins_per_pixel` and lags behind it by less than two
bins (not one, as claimed). -/
theorem step_drift_bound (β : ℚ) (hβ : 0 ≤ β) (x : ℕ) :
    ((consumedBins β x : ℕ) : ℚ) ≤ (x : ℚ) * β ∧
      (x : ℚ) * β - ((consumedBins β x : ℕ) : ℚ) < 2 := by
  induction x with
  | zero => simp [consumedBins]
  | succ x ih =>
    obtain ⟨ihle, ihlt⟩ := ih
    have hfloor_le : ((Nat.floor β : ℕ) : ℚ) ≤ β := Nat.floor_le hβ
    have hfloor_gt : β < ((Nat.floor β : ℕ) : ℚ) + 1 := Nat.lt_floor_add_one β
    have hceil_ge : β ≤ ((Nat.ceil β : ℕ) : ℚ) := Nat.le_ceil β
    have hceil_lt : ((Nat.ceil β : ℕ) : ℚ) < β + 1 := Nat.ceil_lt_add_one hβ
    rw [consumedBins, stepChoice]
    split_ifs with hc
    · obtain ⟨hx0, hratio⟩ := hc
      have hx : (0:ℚ) < (x : ℚ) := by exact_mod_cast Nat.pos_of_ne_zero hx0
      rw [div_lt_iff₀ hx] at hratio
      push_cast
      constructor
      · nlinarith [hratio]
      · nlinarith [hratio]
    · push_neg at hc
      push_cast
      rcases Nat.eq_zero_or_pos x with rfl | hxpos
      · simp [consumedBins] at *
        constructor <;> linarith
      · have hx : (0:ℚ) < (x : ℚ) := by exact_mod_cast hxpos
        have hge := hc (Nat.pos_iff_ne_zero.mp hxpos)
        rw [le_div_iff₀ hx] at hge
        constructor
        · nlinarith [hge]
        · nlinarith [hge]

/-- Witness for the amended C5 bound at `bins_per_pixel = 19/10`, three
columns in. -/
theorem step_drift_bound_witness :
    ((consumedBins (19/10 : ℚ) 3 : ℕ) : ℚ) ≤ ((3 : ℕ) : ℚ) * (19/10 : ℚ) ∧
      ((3 : ℕ) : ℚ) * (19/10 : ℚ) - ((consumedBins (19/10 : ℚ) 3 : ℕ) : ℚ) < 2 :=
  step_drift_bound (19/10 : ℚ) (by norm_num) 3

/-- C6: the per-pixel bin reduction never indexes past the end of the bin
sequence — in the reducing branch the start index is in range and the
consumed range end is clamped to the bin count — and every pixel column
whose starting bin index reaches the final bin yields the sample type's
zero pair without reading bin data and without advancing
(src/binned.rs lines 179-203). -/
theorem consume_bins_safe {α : Type} [LinearOrder α] [Zero α]
    (bins : List (MinMaxPair α)) (start inc : ℕ) :
    (start < bins.length - 1 →
      (consumeBins bins start inc).2 ≤ bins.length ∧ start < bins.length) ∧
    (bins.length - 1 ≤ start →
      consumeBins bins start inc = (⟨0, 0⟩, start)) := by
  constructor
  · intro h
    rw [consumeBins, if_pos h]
    refine ⟨?_, by omega⟩
    dsimp only
    split_ifs with h2
    · exact h2
    · exact le_refl _
  · intro h
    rw [consumeBins, if_neg (by omega)]

/-- Witness for C6 at a two-bin sequence whose starting index sits on the
final bin. -/
theorem consume_bins_safe_witness :
    consumeBins ([⟨1, 2⟩, ⟨3, 4⟩] : List (MinMaxPair ℤ)) 1 7 = (⟨0, 0⟩, 1) :=
  (consume_bins_safe [⟨1, 2⟩, ⟨3, 4⟩] 1 7).2 (by simp)

theorem applyWrites_cons (img : List ℕ) (iv : ℕ × ℕ) (ws : List (ℕ × ℕ)) :
    applyWrites img (iv :: ws) = applyWrites (img.set iv.1 iv.2) ws := rfl

theorem applyWrites_length : ∀ (ws : List (ℕ × ℕ)) (img : List ℕ),
    (applyWrites img ws).length = img.length
  | [], _ => rfl
  | iv :: ws, img => by
      rw [applyWrites_cons, applyWrites_length ws, List.length_set]

theorem applyWrites_getD_of_not_mem : ∀ (ws : List (ℕ × ℕ)) (img : List ℕ)
    (i : ℕ), i ∉ ws.map Prod.fst →
    (applyWrites img ws).getD i 0 = img.getD i 0
  | [], _, _, _ => rfl
  | iv :: ws, img, i, h => by
      have hne : iv.1 ≠ i := fun he => h (by
        rw [List.map_cons]
        exact he ▸ List.mem_cons_self _ _)
      have hni : i ∉ ws.map Prod.fst := fun hm => h (by
        rw [List.map_cons]
        exact List.mem_cons_of_mem _ hm)
      rw [applyWrites_cons, applyWrites_getD_of_not_mem ws _ i hni,
        List.getD_eq_getElem?_getD, List.getD_eq_getElem?_getD,
        List.getElem?_set_ne hne]

theorem applyWrites_getD_congr : ∀ (ws : List (ℕ × ℕ)) (img img' : List ℕ)
    (i : ℕ), img.length = img'.length → i < img.length →
    i ∈ ws.map Prod.fst →
    (applyWrites img ws).getD i 0 = (applyWrites img' ws).getD i 0
  | [], _, _, _, _, _, hmem => absurd hmem (by simp)
  | iv :: ws, img, img', i, hlen, hi, hmem => by
      rw [applyWrites_cons, applyWrites_cons]
      by_cases hmem' : i ∈ ws.map Prod.fst
      · exact applyWrites_getD_congr ws _ _ i
          (by rw [List.length_set, List.length_set, hlen])
          (by rw [List.length_set]; exact hi) hmem'
      · have hiv : iv.1 = i := by
          rw [List.map_cons] at hmem
          rcases List.mem_cons.mp hmem with h | h
          · exact h.symm
          · exact absurd h hmem'
        subst hiv
        rw [applyWrites_getD_of_not_mem ws _ _ hmem',
          applyWrites_getD_of_not_mem ws _ _ hmem',
          List.getD_eq_getElem?_getD, List.getD_eq_getElem?_getD,
          List.getElem?_set_self hi, List.getElem?_set_self (hlen ▸ hi)]

theorem getElem?_eq_some_getD (l : List ℕ) (i : ℕ) (h : i < l.length) :
    l[i]? = some (l.getD i 0) := by
  rw [List.getD_eq_getElem?_getD, List.getElem?_eq_getElem h]
  rfl

theorem applyWrites_congr_of_cover (ws : List (ℕ × ℕ)) (img img' : List ℕ)
    (hlen : img.length = img'.length)
    (hcov : ∀ i, i < img.length → i ∈ ws.map Prod.fst) :
    applyWrites img ws = applyWrites img' ws := by
  apply List.ext_getElem?
  intro i
  by_cases hi : i < img.length
  · rw [getElem?_eq_some_getD _ i (by rw [applyWrites_length]; exact hi),
      getElem?_eq_some_getD _ i
        (by rw [applyWrites_length, ← hlen]; exact hi),
      applyWrites_getD_congr ws img img' i hlen hi (hcov i hi)]
  · rw [List.getElem?_eq_none (by rw [applyWrites_length]; omega),
      List.getElem?_eq_none (by rw [applyWrites_length, ← hlen]; omega)]

theorem translate_le (h : ℕ) (ampMin scale v : ℚ) :
    translate h ampMin scale v ≤ h :=
  Nat.sub_le _ _

theorem colorBytesPair_lengths {b f : Color} {p : List ℕ × List ℕ}
    (h : colorBytesPair b f = some p) :
    p.1.length = b.bytesPerPixel ∧ p.2.length = b.bytesPerPixel := by
  cases b <;> cases f <;>
    simp_all [colorBytesPair, Color.bytesPerPixel, Prod.ext_iff] <;>
    obtain ⟨hl, hr⟩ := h <;> simp [← hl, ← hr]

theorem rowWrites_fst_mem {fullw bpp px py : ℕ} {bytes : List ℕ} {q : ℕ}
    (h : q ∈ (rowWrites fullw bpp px py bytes).map Prod.fst) :
    ∃ c, c < bytes.length ∧ q = pxIdx fullw bpp px py c := by
  rw [rowWrites] at h
  simp only [List.map_map, List.mem_map, List.mem_range] at h
  obtain ⟨c, hc, hq⟩ := h
  exact ⟨c, hc, hq.symm⟩

theorem segWrites_fst_mem {fullw bpp px offy y0 y1 : ℕ} {bytes : List ℕ}
    {q : ℕ} (h : q ∈ (segWrites fullw bpp px offy y0 y1 bytes).map Prod.fst) :
    ∃ y c, y0 ≤ y ∧ y < y0 + (y1 - y0) ∧ c < bytes.length ∧
      q = pxIdx fullw bpp px (offy + y) c := by
  rw [segWrites] at h
  simp only [List.map_flatMap, List.mem_flatMap] at h
  obtain ⟨y, hy, hq⟩ := h
  obtain ⟨hy1, hy2⟩ := List.mem_range'_1.mp hy
  obtain ⟨c, hc, hq'⟩ := rowWrites_fst_mem hq
  exact ⟨y, c, hy1, hy2, hc, hq'⟩

theorem rowWrites_fst_cover {fullw bpp px py : ℕ} {bytes : List ℕ} {c : ℕ}
    (hc : c < bytes.length) :
    pxIdx fullw bpp px py c ∈ (rowWrites fullw bpp px py bytes).map Prod.fst := by
  rw [rowWrites]
  simp only [List.map_map, List.mem_map, List.mem_range]
  exact ⟨c, hc, rfl⟩

theorem segWrites_fst_cover {fullw bpp px offy y0 y1 : ℕ} {bytes : List ℕ}
    {y c : ℕ} (hy1 : y0 ≤ y) (hy2 : y < y0 + (y1 - y0))
    (hc : c < bytes.length) :
    pxIdx fullw bpp px (offy + y) c ∈
      (segWrites fullw bpp px offy y0 y1 bytes).map Prod.fst := by
  rw [segWrites]
  simp only [List.map_flatMap, List.mem_flatMap]
  exact ⟨y, List.mem_range'_1.mpr ⟨hy1, hy2⟩, rowWrites_fst_cover hc⟩

theorem columnWrites_fst_mem {fullw bpp px offy maxT minT h0 : ℕ}
    {bg fg : List ℕ} {q : ℕ}
    (hmaxT : maxT ≤ h0) (hminT : minT ≤ h0)
    (hbg : bg.length = bpp) (hfg : fg.length = bpp)
    (h : q ∈ (columnWrites fullw bpp px offy maxT minT h0 bg fg).map
      Prod.fst) :
    ∃ y c, y < h0 ∧ c < bpp ∧ q = pxIdx fullw bpp px (offy + y) c := by
  rw [columnWrites] at h
  simp only [List.map_append, List.mem_append] at h
  rcases h with (h | h) | h
  · obtain ⟨y, c, _, hy2, hc, hq⟩ := segWrites_fst_mem h
    exact ⟨y, c, by omega, hbg ▸ hc, hq⟩
  · obtain ⟨y, c, _, hy2, hc, hq⟩ := segWrites_fst_mem h
    exact ⟨y, c, by omega, hfg ▸ hc, hq⟩
  · obtain ⟨y, c, _, hy2, hc, hq⟩ := segWrites_fst_mem h
    exact ⟨y, c, by omega, hbg ▸ hc, hq⟩

theorem columnWrites_fst_cover {fullw bpp px offy maxT minT h0 : ℕ}
    {bg fg : List ℕ} {y c : ℕ}
    (hminT : minT ≤ h0) (hbg : bg.length = bpp) (hfg : fg.length = bpp)
    (hy : y < h0) (hc : c < bpp) :
    pxIdx fullw bpp px (offy + y) c ∈
      (columnWrites fullw bpp px offy maxT minT h0 bg fg).map Prod.fst := by
  rw [columnWrites]
  simp only [List.map_append, List.mem_append]
  by_cases h1 : y < maxT
  · exact Or.inl (Or.inl (segWrites_fst_cover (Nat.zero_le y) (by omega)
      (hbg ▸ hc)))
  · by_cases h2 : y < minT
    · exact Or.inl (Or.inr (segWrites_fst_cover (by omega) (by omega)
        (hfg ▸ hc)))
    · exact Or.inr (segWrites_fst_cover (by omega) (by omega) (hbg ▸ hc))

theorem column_writes_fst_mem {α : Type} [LinearOrder α] [Zero α]
    {C : RenderCtx α} {start x q : ℕ}
    (hbg : C.bg.length = C.bpp) (hfg : C.fg.length = C.bpp)
    (h : q ∈ ((column C start x).2).map Prod.fst) :
    ∃ y c, y < C.h ∧ c < C.bpp ∧
      q = pxIdx C.fullw C.bpp (C.offx + x) (C.offy + y) c := by
  rw [column] at h
  exact columnWrites_fst_mem (translate_le _ _ _ _) (translate_le _ _ _ _)
    hbg hfg h

theorem column_writes_fst_cover {α : Type} [LinearOrder α] [Zero α]
    {C : RenderCtx α} {start x y c : ℕ}
    (hbg : C.bg.length = C.bpp) (hfg : C.fg.length = C.bpp)
    (hy : y < C.h) (hc : c < C.bpp) :
    pxIdx C.fullw C.bpp (C.offx + x) (C.offy + y) c ∈
      ((column C start x).2).map Prod.fst := by
  rw [column]
  exact columnWrites_fst_cover (translate_le _ _ _ _) hbg hfg hy hc

theorem renderCols_fst_mem {α : Type} [LinearOrder α] [Zero α]
    {C : RenderCtx α} (hbg : C.bg.length = C.bpp)
    (hfg : C.fg.length = C.bpp) :
    ∀ (xs : List ℕ) (start : ℕ) {q : ℕ},
    q ∈ (renderCols C start xs).map Prod.fst →
    ∃ x y c, x ∈ xs ∧ y < C.h ∧ c < C.bpp ∧
      q = pxIdx C.fullw C.bpp (C.offx + x) (C.offy + y) c
  | [], _, _, h => absurd h (by simp [renderCols])
  | x :: xs, start, q, h => by
      rw [renderCols] at h
      rw [List.map_append, List.mem_append] at h
      rcases h with h | h
      · obtain ⟨y, c, hy, hc, hq⟩ := column_writes_fst_mem hbg hfg h
        exact ⟨x, y, c, List.mem_cons_self _ _, hy, hc, hq⟩
      · obtain ⟨x', y, c, hx', hy, hc, hq⟩ :=
          renderCols_fst_mem hbg hfg xs (column C start x).1 h
        exact ⟨x', y, c, List.mem_cons_of_mem _ hx', hy, hc, hq⟩

theorem renderCols_fst_cover {α : Type} [LinearOrder α] [Zero α]
    {C : RenderCtx α} (hbg : C.bg.length = C.bpp)
    (hfg : C.fg.length = C.bpp) :
    ∀ (xs : List ℕ) (start : ℕ) {x y c : ℕ}, x ∈ xs → y < C.h → c < C.bpp →
    pxIdx C.fullw C.bpp (C.offx + x) (C.offy + y) c ∈
      (renderCols C start xs).map Prod.fst
  | [], _, _, _, _, hx, _, _ => absurd hx (List.not_mem_nil _)
  | x' :: xs, start, x, y, c, hx, hy, hc => by
      rw [renderCols, List.map_append, List.mem_append]
      rcases List.mem_cons.mp hx with rfl | hx'
      · exact Or.inl (column_writes_fst_cover hbg hfg hy hc)
      · exact Or.inr (renderCols_fst_cover hbg hfg xs _ hx' hy hc)

theorem render_write_fst {α : Type} [LinearOrder α] [Zero α]
    (r : BinnedWaveformRenderer α) (toAmp : α → ℚ) (range : TimeRange)
    (offsets shape : ℕ × ℕ) (img : List ℕ) (full_shape : ℕ × ℕ) :
    (render_write r toAmp range offsets shape img full_shape).1 =
      if shape.1 = 0 ∨ shape.2 = 0 then
        some (RenderError.invalidSize "shape")
      else if full_shape.1 < shape.1 ∨ full_shape.2 < shape.2 then
        some (RenderError.invalidSize "shape and/or full_shape")
      else if (offsets.1 + shape.1) * (offsets.2 + shape.2) *
          r.config.background.bytesPerPixel > img.length then
        some (RenderError.invalidSize "offsets and/or shape")
      else if colorBytesPair r.config.background r.config.foreground =
          none then
        some RenderError.panic
      else none := by
  unfold render_write
  split_ifs <;> rfl

theorem render_write_ok_snd {α : Type} [LinearOrder α] [Zero α]
    {r : BinnedWaveformRenderer α} {toAmp : α → ℚ} {range : TimeRange}
    {offsets shape : ℕ × ℕ} {img : List ℕ} {full_shape : ℕ × ℕ}
    (h : (render_write r toAmp range offsets shape img full_shape).1 =
      none) :
    (render_write r toAmp range offsets shape img full_shape).2 =
      applyWrites img
        (renderWritesFor r toAmp range offsets.1 offsets.2 shape.1 shape.2
          full_shape.1) := by
  unfold render_write at h ⊢
  split_ifs at h ⊢
  simp_all

theorem render_write_ok_colors {α : Type} [LinearOrder α] [Zero α]
    {r : BinnedWaveformRenderer α} {toAmp : α → ℚ} {range : TimeRange}
    {offsets shape : ℕ × ℕ} {img : List ℕ} {full_shape : ℕ × ℕ}
    (h : (render_write r toAmp range offsets shape img full_shape).1 =
      none) :
    ∃ p, colorBytesPair r.config.background r.config.foreground = some p := by
  rw [render_write_fst] at h
  split_ifs at h with h1 h2 h3 h4
  rcases hcc : colorBytesPair r.config.background r.config.foreground with
    _ | p
  · exact absurd hcc h4
  · exact ⟨p, rfl⟩

theorem render_write_snd_length {α : Type} [LinearOrder α] [Zero α]
    (r : BinnedWaveformRenderer α) (toAmp : α → ℚ) (range : TimeRange)
    (offsets shape : ℕ × ℕ) (img : List ℕ) (full_shape : ℕ × ℕ) :
    (render_write r toAmp range offsets shape img full_shape).2.length =
      img.length := by
  unfold render_write
  split_ifs <;> simp [applyWrites_length]

theorem renderWritesFor_fst_mem {α : Type} [LinearOrder α] [Zero α]
    {r : BinnedWaveformRenderer α} {toAmp : α → ℚ} {range : TimeRange}
    {offx offy w h0 fullw : ℕ} {p : List ℕ × List ℕ} {q : ℕ}
    (hp : colorBytesPair r.config.background r.config.foreground = some p)
    (h : q ∈ (renderWritesFor r toAmp range offx offy w h0 fullw).map
      Prod.fst) :
    ∃ x y c, x < w ∧ y < h0 ∧ c < r.config.background.bytesPerPixel ∧
      q = pxIdx fullw r.config.background.bytesPerPixel (offx + x)
        (offy + y) c := by
  unfold renderWritesFor at h
  rw [hp] at h
  obtain ⟨x, y, c, hx, hy, hc, hq⟩ :=
    renderCols_fst_mem (colorBytesPair_lengths hp).1
      (colorBytesPair_lengths hp).2 _ _ h
  exact ⟨x, y, c, List.mem_range.mp hx, hy, hc, hq⟩

theorem renderWritesFor_fst_cover {α : Type} [LinearOrder α] [Zero α]
    {r : BinnedWaveformRenderer α} {toAmp : α → ℚ} {range : TimeRange}
    {offx offy w h0 fullw : ℕ} {p : List ℕ × List ℕ} {x y c : ℕ}
    (hp : colorBytesPair r.config.background r.config.foreground = some p)
    (hx : x < w) (hy : y < h0)
    (hc : c < r.config.background.bytesPerPixel) :
    pxIdx fullw r.config.background.bytesPerPixel (offx + x) (offy + y) c ∈
      (renderWritesFor r toAmp range offx offy w h0 fullw).map Prod.fst := by
  unfold renderWritesFor
  rw [hp]
  exact renderCols_fst_cover (colorBytesPair_lengths hp).1
    (colorBytesPair_lengths hp).2 _ _ (List.mem_range.mpr hx) hy hc

/-- C4: when `render_write` returns success, it has touched only the
destShape-sized sub-rectangle at destOffset in the pixel format's row-major
byte layout over `full_shape` — every byte of the buffer outside the
sub-rectangle holds its original value — and it targets every byte address
of that sub-rectangle (each one is in the write list)
(src/binned.rs lines 222-351). -/
theorem render_write_frame {α : Type} [LinearOrder α] [Zero α]
    (r : BinnedWaveformRenderer α) (toAmp : α → ℚ) (range : TimeRange)
    (offx offy w h fullw fullh : ℕ) (img : List ℕ)
    (hsucc : (render_write r toAmp range (offx, offy) (w, h) img
      (fullw, fullh)).1 = none) :
    (∀ i, i < img.length →
      (∀ x y c, x < w → y < h → c < r.config.background.bytesPerPixel →
        i ≠ pxIdx fullw r.config.background.bytesPerPixel (offx + x)
          (offy + y) c) →
      (render_write r toAmp range (offx, offy) (w, h) img
        (fullw, fullh)).2.getD i 0 = img.getD i 0) ∧
    (∀ x y c, x < w → y < h → c < r.config.background.bytesPerPixel →
      pxIdx fullw r.config.background.bytesPerPixel (offx + x) (offy + y)
          c ∈
        (renderWritesFor r toAmp range offx offy w h fullw).map
          Prod.fst) ∧
    (∀ img', img'.length = img.length →
      ∀ x y c, x < w → y < h → c < r.config.background.bytesPerPixel →
      pxIdx fullw r.config.background.bytesPerPixel (offx + x) (offy + y)
          c < img.length →
      (render_write r toAmp range (offx, offy) (w, h) img
        (fullw, fullh)).2.getD
        (pxIdx fullw r.config.background.bytesPerPixel (offx + x)
          (offy + y) c) 0 =
      (render_write r toAmp range (offx, offy) (w, h) img'
        (fullw, fullh)).2.getD
        (pxIdx fullw r.config.background.bytesPerPixel (offx + x)
          (offy + y) c) 0) := by
  obtain ⟨p, hp⟩ := render_write_ok_colors hsucc
  refine ⟨?_, ?_, ?_⟩
  · intro i hi hout
    rw [render_write_ok_snd hsucc]
    apply applyWrites_getD_of_not_mem
    intro hmem
    obtain ⟨x, y, c, hx, hy, hc, hq⟩ := renderWritesFor_fst_mem hp hmem
    exact hout x y c hx hy hc hq
  · intro x y c hx hy hc
    exact renderWritesFor_fst_cover hp hx hy hc
  · intro img' hlen' x y c hx hy hc hin
    have hsucc' : (render_write r toAmp range (offx, offy) (w, h) img'
        (fullw, fullh)).1 = none := by
      rw [render_write_fst]
      rw [render_write_fst] at hsucc
      rw [hlen']
      exact hsucc
    rw [render_write_ok_snd hsucc, render_write_ok_snd hsucc']
    exact applyWrites_getD_congr _ img img' _ hlen'.symm hin
      (renderWritesFor_fst_cover hp hx hy hc)

/-- Witness for C4 at a concrete successful call. -/
theorem render_write_frame_witness :
    (∀ i, i < ([42] : List ℕ).length →
      (∀ x y c, x < 1 → y < 1 →
        c < testRenderer1.config.background.bytesPerPixel →
        i ≠ pxIdx 1 testRenderer1.config.background.bytesPerPixel (0 + x)
          (0 + y) c) →
      (render_write testRenderer1 (fun _ => (0:ℚ)) (TimeRange.samples 0 1)
        (0, 0) (1, 1) [42] (1, 1)).2.getD i 0 = ([42] : List ℕ).getD i 0) ∧
    (∀ x y c, x < 1 → y < 1 →
      c < testRenderer1.config.background.bytesPerPixel →
      pxIdx 1 testRenderer1.config.background.bytesPerPixel (0 + x) (0 + y)
          c ∈
        (renderWritesFor testRenderer1 (fun _ => (0:ℚ))
          (TimeRange.samples 0 1) 0 0 1 1 1).map Prod.fst) ∧
    (∀ img', img'.length = ([42] : List ℕ).length →
      ∀ x y c, x < 1 → y < 1 →
      c < testRenderer1.config.background.bytesPerPixel →
      pxIdx 1 testRenderer1.config.background.bytesPerPixel (0 + x) (0 + y)
          c < ([42] : List ℕ).length →
      (render_write testRenderer1 (fun _ => (0:ℚ)) (TimeRange.samples 0 1)
        (0, 0) (1, 1) [42] (1, 1)).2.getD
        (pxIdx 1 testRenderer1.config.background.bytesPerPixel (0 + x)
          (0 + y) c) 0 =
      (render_write testRenderer1 (fun _ => (0:ℚ)) (TimeRange.samples 0 1)
        (0, 0) (1, 1) img' (1, 1)).2.getD
        (pxIdx 1 testRenderer1.config.background.bytesPerPixel (0 + x)
          (0 + y) c) 0) :=
  render_write_frame testRenderer1 (fun _ => (0:ℚ)) (TimeRange.samples 0 1)
    0 0 1 1 1 1 [42] (by rfl)

/-- C3: for every range and nonzero shape, `render_vec range (w, h)` is
byte-identical to the buffer a successful
`render_write range (0,0) (w,h) buf (w,h)` leaves in a caller buffer of
length `w * h * bytesPerPixel`, regardless of that buffer's initial
contents (src/binned.rs lines 85-101 and 125-354). -/
theorem render_vec_eq_render_write {α : Type} [LinearOrder α] [Zero α]
    (r : BinnedWaveformRenderer α) (toAmp : α → ℚ) (range : TimeRange)
    (w h : ℕ) (buf0 : List ℕ) (hw : w ≠ 0) (hh : h ≠ 0)
    (hlen : buf0.length = w * h * r.config.background.bytesPerPixel)
    (hsucc : (render_write r toAmp range (0, 0) (w, h) buf0 (w, h)).1 =
      none) :
    render_vec r toAmp range (w, h) =
      some ((render_write r toAmp range (0, 0) (w, h) buf0 (w, h)).2) := by
  obtain ⟨p, hp⟩ := render_write_ok_colors hsucc
  have hbpp : 0 < r.config.background.bytesPerPixel := by
    cases r.config.background <;> simp [Color.bytesPerPixel]
  have hzlen : (List.replicate
      (w * h * r.config.background.bytesPerPixel) (0:ℕ)).length =
      w * h * r.config.background.bytesPerPixel := List.length_replicate _ _
  have hsucc0 : (render_write r toAmp range (0, 0) (w, h)
      (List.replicate (w * h * r.config.background.bytesPerPixel) 0)
      (w, h)).1 = none := by
    rw [render_write_fst] at hsucc ⊢
    rw [hzlen, ← hlen]
    exact hsucc
  have hvec : render_vec r toAmp range (w, h) =
      some ((render_write r toAmp range (0, 0) (w, h)
        (List.replicate (w * h * r.config.background.bytesPerPixel) 0)
        (w, h)).2) := by
    rw [render_vec, if_neg (by simp [hw, hh])]
  rw [hvec]
  congr 1
  rw [render_write_ok_snd hsucc, render_write_ok_snd hsucc0]
  apply applyWrites_congr_of_cover
  · rw [hzlen, hlen]
  · intro i hi
    rw [hzlen] at hi
    have e2 : (i / r.config.background.bytesPerPixel / w) * w +
        (i / r.config.background.bytesPerPixel) % w =
        i / r.config.background.bytesPerPixel := by
      rw [mul_comm]
      exact Nat.div_add_mod _ _
    have e1 : (i / r.config.background.bytesPerPixel) *
        r.config.background.bytesPerPixel +
        i % r.config.background.bytesPerPixel = i := by
      rw [mul_comm]
      exact Nat.div_add_mod _ _
    have h1 : i / r.config.background.bytesPerPixel < w * h :=
      (Nat.div_lt_iff_lt_mul hbpp).mpr hi
    have hx : (i / r.config.background.bytesPerPixel) % w < w :=
      Nat.mod_lt _ (Nat.pos_of_ne_zero hw)
    have hy : i / r.config.background.bytesPerPixel / w < h :=
      (Nat.div_lt_iff_lt_mul (Nat.pos_of_ne_zero hw)).mpr
        (lt_of_lt_of_eq h1 (mul_comm w h))
    have hc : i % r.config.background.bytesPerPixel <
        r.config.background.bytesPerPixel := Nat.mod_lt _ hbpp
    have hi_eq : i = pxIdx w r.config.background.bytesPerPixel
        (0 + (i / r.config.background.bytesPerPixel) % w)
        (0 + i / r.config.background.bytesPerPixel / w)
        (i % r.config.background.bytesPerPixel) := by
      rw [pxIdx]
      simp only [Nat.zero_add]
      rw [e2, e1]
    rw [hi_eq]
    exact renderWritesFor_fst_cover hp hx hy hc

/-- Witness for C3 at a concrete successful call over a nonzero initial
buffer. -/
theorem render_vec_eq_render_write_witness :
    render_vec testRenderer1 (fun _ => (0:ℚ)) (TimeRange.samples 0 1)
      (1, 1) =
      some ((render_write testRenderer1 (fun _ => (0:ℚ))
        (TimeRange.samples 0 1) (0, 0) (1, 1) [42] (1, 1)).2) :=
  render_vec_eq_render_write testRenderer1 (fun _ => (0:ℚ))
    (TimeRange.samples 0 1) 1 1 [42] (by decide) (by decide) (by rfl)
    (by rfl)

/-- C9: `render_vec` returns the empty result exactly for a zero dimension,
and otherwise a buffer of exactly `w * h * bytesPerPixel` bytes for the
config's color format (src/binned.rs lines 85-101). -/
theorem render_vec_spec {α : Type} [LinearOrder α] [Zero α]
    (r : BinnedWaveformRenderer α) (toAmp : α → ℚ) (range : TimeRange)
    (w h : ℕ) :
    (render_vec r toAmp range (w, h) = none ↔ w = 0 ∨ h = 0) ∧
    ∀ buf, render_vec r toAmp range (w, h) = some buf →
      buf.length = w * h * r.config.background.bytesPerPixel := by
  constructor
  · rw [render_vec]
    split_ifs with hz
    · simpa using hz
    · simp only [] at hz
      exact iff_of_false (by simp) (by simpa using hz)
  · intro buf hbuf
    rw [render_vec] at hbuf
    split_ifs at hbuf with hz
    simp only [Option.some.injEq] at hbuf
    subst hbuf
    rw [render_write_snd_length, List.length_replicate]

/-- Witness for C9 at a concrete nonzero shape. -/
theorem render_vec_spec_witness :
    ((render_write testRenderer1 (fun _ => (0:ℚ)) (TimeRange.samples 0 1)
      (0, 0) (1, 1)
      (List.replicate
        (1 * 1 * testRenderer1.config.background.bytesPerPixel) 0)
      (1, 1)).2).length =
      1 * 1 * testRenderer1.config.background.bytesPerPixel :=
  (render_vec_spec testRenderer1 (fun _ => (0:ℚ)) (TimeRange.samples 0 1)
    1 1).2 _ (by rfl)

/-- C2 (refuted as stated; the code is at fault): `render_write`'s byte
bounds check `(offx + w) * (offy + h) * bpp ≤ img.len()` does not account
for the row stride `fullw` of the declared `full_shape` layout.  At the
concrete input below — `full_shape = (100, 2)`, `shape = (1, 2)`, zero
offsets, scalar format, a 2-byte buffer — validation passes (the returned
error is `none`), yet the write list addresses byte 100, beyond the
buffer's length 2: in the source this is an out-of-bounds slice index,
i.e. a panic during writing, contradicting the claimed guarantee that
validated calls only write inside the buffer
(src/binned.rs lines 139-155 and 222-351). -/
theorem render_write_bounds_check_insufficient :
    (render_write testRenderer2 (fun _ => (0:ℚ)) (TimeRange.samples 0 2)
      (0, 0) (1, 2) [0, 0] (100, 2)).1 = none ∧
    (100 : ℕ) ∈ (renderWritesFor testRenderer2 (fun _ => (0:ℚ))
      (TimeRange.samples 0 2) 0 0 1 2 100).map Prod.fst ∧
    ([0, 0] : List ℕ).length ≤ 100 := by
  refine ⟨by rfl, ?_, by norm_num⟩
  have h := @renderWritesFor_fst_cover ℤ _ _ testRenderer2 (fun _ => (0:ℚ))
    (TimeRange.samples 0 2) 0 0 1 2 100 ([7], [9]) 0 1 0 (by rfl)
    (by norm_num) (by norm_num)
    (by norm_num [testRenderer2, testConfig, Color.bytesPerPixel])
  simpa [pxIdx, testRenderer2, testConfig, Color.bytesPerPixel] using h

end WaveformRs
